import Mathlib

/-!
Verification of the MySQL-to-SQLite transpiler in `data.py`
(`convert_mysql_to_sqlite`, `split_sql_commands`, `create_database`).

Scripts are modelled as `List Char`.  Each regular-expression rewrite of the
converter is embedded as a direct matching function with Python `re.sub`
semantics for that specific pattern: scan left to right, replace each
non-overlapping match, continue after the replaced span.  Matching is
case-insensitive exactly where `re.IGNORECASE` applies.
-/

namespace HospitalQuery

/-- Lower-case an ASCII letter; all other characters are unchanged
(the scope of `re.IGNORECASE` on the ASCII patterns used here). -/
def asciiLower (c : Char) : Char :=
  if 'A' ≤ c ∧ c ≤ 'Z' then Char.ofNat (c.toNat + 32) else c

/-- Python `str.strip()` whitespace characters. -/
def isPyWs (c : Char) : Bool :=
  c = ' ' ∨ c = '\t' ∨ c = '\n' ∨ c = '\r' ∨ c = '\x0b' ∨ c = '\x0c'

/-- Regex class `[0-9]`. -/
def isDigitCh (c : Char) : Bool := '0' ≤ c ∧ c ≤ '9'

/-- Regex class `\w` restricted to ASCII. -/
def isWordChar (c : Char) : Bool :=
  ('a' ≤ c ∧ c ≤ 'z') ∨ ('A' ≤ c ∧ c ≤ 'Z') ∨ isDigitCh c ∨ c = '_'

/-- Case-insensitive literal prefix match; on success returns the suffix
after the literal. -/
def dropPrefixCI : List Char → List Char → Option (List Char)
  | [], l => some l
  | _ :: _, [] => none
  | p :: ps, c :: cs =>
    if asciiLower c = asciiLower p then dropPrefixCI ps cs else none

/-- Index of the first character satisfying `p`. -/
def firstIdx (p : Char → Bool) : List Char → Option Nat
  | [] => none
  | c :: cs => if p c then some 0 else (firstIdx p cs).map (· + 1)

/-- Index of the last character satisfying `p`. -/
def lastIdx (p : Char → Bool) : List Char → Option Nat
  | [] => none
  | c :: cs =>
    match lastIdx p cs with
    | some n => some (n + 1)
    | none => if p c then some 0 else none

/-- Tail of a match of `[0-9]+\)` at the head of `l` (greedy digits, then a
closing parenthesis). -/
def digitsRParen (l : List Char) : Option (List Char) :=
  let ds := l.takeWhile isDigitCh
  if ds = [] then none
  else
    match l.drop ds.length with
    | ')' :: r => some r
    | _ => none

/-- Tail of a match of the greedy `.+\)` at the head of `l`: `.` does not
match a newline, `.+` backtracks from the right, so the match extends to the
last `)` on the current line, which must be preceded by at least one
character. -/
def greedyDotRParen (l : List Char) : Option (List Char) :=
  let seg := l.takeWhile (fun c => c ≠ '\n')
  match lastIdx (fun c => c = ')') seg with
  | some k => if 1 ≤ k then some (l.drop (k + 1)) else none
  | none => none

/-- Tail of a match of the non-greedy `.*?;` at the head of `l`: `.` does not
match a newline, so the first `;` on the current line ends the match. -/
def lazySemi (l : List Char) : Option (List Char) :=
  let seg := l.takeWhile (fun c => c ≠ '\n')
  match firstIdx (fun c => c = ';') seg with
  | some k => some (l.drop (k + 1))
  | none => none

/-- Matcher for `int\([0-9]+\)` (case-insensitive). -/
def mInt (l : List Char) : Option (List Char) :=
  (dropPrefixCI (("int(").data) l).bind digitsRParen

/-- Matcher for `varchar\([0-9]+\)` (case-insensitive). -/
def mVarchar (l : List Char) : Option (List Char) :=
  (dropPrefixCI (("varchar(").data) l).bind digitsRParen

/-- Matcher for `decimal\(.+\)` (case-insensitive, greedy). -/
def mDecimal (l : List Char) : Option (List Char) :=
  (dropPrefixCI (("decimal(").data) l).bind greedyDotRParen

/-- Matcher for `double\(.+\)` (case-insensitive, greedy). -/
def mDouble (l : List Char) : Option (List Char) :=
  (dropPrefixCI (("double(").data) l).bind greedyDotRParen

/-- Matcher for the literal `AUTO_INCREMENT` (case-insensitive). -/
def mAutoInc (l : List Char) : Option (List Char) :=
  dropPrefixCI (("auto_increment").data) l

/-- Matcher for `CREATE DATABASE.*?;` (case-insensitive, no dot-all). -/
def mCreateDb (l : List Char) : Option (List Char) :=
  (dropPrefixCI (("create database").data) l).bind lazySemi

/-- Matcher for `USE.*?;` (case-insensitive, no dot-all, no word boundary). -/
def mUse (l : List Char) : Option (List Char) :=
  (dropPrefixCI (("use").data) l).bind lazySemi

/-- Tail of a match of `\s*=\s*\w+` at the head of `l`. -/
def eqWord (l : List Char) : Option (List Char) :=
  match l.dropWhile isPyWs with
  | '=' :: r =>
    let r' := r.dropWhile isPyWs
    let w := r'.takeWhile isWordChar
    if w = [] then none else some (r'.drop w.length)
  | _ => none

/-- Matcher for `ENGINE\s*=\s*\w+` (case-insensitive). -/
def mEngine (l : List Char) : Option (List Char) :=
  (dropPrefixCI (("engine").data) l).bind eqWord

/-- Matcher for `DEFAULT\s+CHARSET\s*=\s*\w+` (case-insensitive). -/
def mCharset (l : List Char) : Option (List Char) :=
  (dropPrefixCI (("default").data) l).bind fun r =>
    let ws := r.takeWhile isPyWs
    if ws = [] then none
    else (dropPrefixCI (("charset").data) (r.drop ws.length)).bind eqWord

/-- Matcher for `COLLATE\s+\w+` (case-insensitive). -/
def mCollate (l : List Char) : Option (List Char) :=
  (dropPrefixCI (("collate").data) l).bind fun r =>
    let ws := r.takeWhile isPyWs
    if ws = [] then none
    else
      let r' := r.drop ws.length
      let w := r'.takeWhile isWordChar
      if w = [] then none else some (r'.drop w.length)

/-- One pass of `re.sub`: at each position try the matcher; on a match emit
the replacement and continue after the matched span, otherwise keep the
character.  Every matcher above consumes at least one character, so fuel
equal to the input length is never exhausted on a non-empty list. -/
def reSubF (m : List Char → Option (List Char)) (repl : List Char) :
    Nat → List Char → List Char
  | 0, l => l
  | _ + 1, [] => []
  | fuel + 1, c :: cs =>
    match m (c :: cs) with
    | some rest => repl ++ reSubF m repl fuel rest
    | none => c :: reSubF m repl fuel cs

/-- `re.sub` of one pattern over a whole script. -/
def reSub (m : List Char → Option (List Char)) (repl : List Char)
    (l : List Char) : List Char :=
  reSubF m repl l.length l

/-- Python `str.strip()` from the left. -/
def lstripWs (l : List Char) : List Char := l.dropWhile isPyWs

/-- Python `str.strip()` from the right. -/
def rstripWs (l : List Char) : List Char :=
  (l.reverse.dropWhile isPyWs).reverse

/-- Python `str.strip()`. -/
def pyStrip (l : List Char) : List Char := rstripWs (lstripWs l)

/-- The ordered rewrite list of `convert_mysql_to_sqlite`, applied to the
whole script text; later rules see the output of earlier ones. -/
def applyConversions (sql : List Char) : List Char :=
  let s1 := reSub mInt (("INTEGER").data) sql
  let s2 := reSub mVarchar (("TEXT").data) s1
  let s3 := reSub mDecimal (("REAL").data) s2
  let s4 := reSub mDouble (("REAL").data) s3
  let s5 := reSub mAutoInc [] s4
  let s6 := reSub mCreateDb [] s5
  let s7 := reSub mUse [] s6
  let s8 := reSub mEngine [] s7
  let s9 := reSub mCharset [] s8
  reSub mCollate [] s9

/-- Error message of the empty-script check in `convert_mysql_to_sqlite`. -/
def emptyScriptMsg : List Char := ("Empty SQL script provided").data

/-- The converter `convert_mysql_to_sqlite`: raises `DatabaseError` on an
empty or whitespace-only script, otherwise applies the rewrite list. -/
def convert_mysql_to_sqlite (sql : List Char) : Except (List Char) (List Char) :=
  if pyStrip sql = [] then Except.error emptyScriptMsg
  else Except.ok (applyConversions sql)

/-- Case-insensitive substring containment (for a lower-case ASCII pattern
this is Python's `pat in text.lower()`). -/
def containsCI (pat : List Char) : List Char → Bool
  | [] => (dropPrefixCI pat []).isSome
  | c :: cs => (dropPrefixCI pat (c :: cs)).isSome || containsCI pat cs

/-- Python `str.replace('\r\n', '\n')`: left-to-right, non-overlapping. -/
def normCRLF : List Char → List Char
  | [] => []
  | [c] => [c]
  | a :: b :: rest =>
    if a = '\r' ∧ b = '\n' then '\n' :: normCRLF rest
    else a :: normCRLF (b :: rest)

/-- Python `str.split('\n')`: every newline separates, empty pieces kept.
The recursive result is never empty, so prepending to its head is total. -/
def splitOnNl : List Char → List (List Char)
  | [] => [[]]
  | c :: rest =>
    let r := splitOnNl rest
    if c = '\n' then [] :: r
    else (c :: r.headI) :: r.tail

/-- Python `' '.join(...)`. -/
def joinSpace : List (List Char) → List Char
  | [] => []
  | [b] => b
  | b :: b2 :: bs => b ++ ' ' :: joinSpace (b2 :: bs)

/-- Join statements one per physical line (`'\n'.join(...)`). -/
def joinNl : List (List Char) → List Char
  | [] => []
  | [b] => b
  | b :: b2 :: bs => b ++ '\n' :: joinNl (b2 :: bs)

/-- Characters removed by Python `str.strip('; ')`. -/
def isSemiSpace (c : Char) : Bool := c = ';' ∨ c = ' '

/-- Python `str.strip('; ')`. -/
def stripSemiSpace (l : List Char) : List Char :=
  ((l.dropWhile isSemiSpace).reverse.dropWhile isSemiSpace).reverse

/-- Python `str.startswith('--')`. -/
def startsDashDash (l : List Char) : Bool := l.take 2 = ['-', '-']

/-- Result of the splitter loop: emitted commands plus the buffer of
accumulated lines left open at end of input. -/
structure SplitOut where
  commands : List (List Char)
  leftover : List (List Char)
deriving DecidableEq, Repr

/-- The line loop of `split_sql_commands`: strip each line, skip blanks and
`--` comments, accumulate lines, close the buffer into one command at each
line ending with `;` (dropping commands empty after `strip('; ')`). -/
def splitGo : List (List Char) → List (List Char) → SplitOut
  | [], buf => ⟨[], buf⟩
  | ln :: rest, buf =>
    let l := pyStrip ln
    if l = [] then splitGo rest buf
    else if startsDashDash l then splitGo rest buf
    else if l.getLast? = some ';' then
      let cmd := joinSpace (buf ++ [l])
      let r := splitGo rest []
      if stripSemiSpace cmd = [] then ⟨r.commands, r.leftover⟩
      else ⟨cmd :: r.commands, r.leftover⟩
    else splitGo rest (buf ++ [l])

/-- The whole splitter run, keeping the leftover buffer. -/
def split_full (s : List Char) : SplitOut :=
  splitGo (splitOnNl (normCRLF s)) []

/-- The splitter `split_sql_commands`: the list of emitted commands. -/
def split_sql_commands (s : List Char) : List (List Char) :=
  (split_full s).commands

/-- The non-fatal warning printed at end of input: present exactly when the
leftover buffer is non-empty and its joined text is not whitespace-only;
carries the joined incomplete command text. -/
def splitWarning (s : List Char) : Option (List Char) :=
  let lo := (split_full s).leftover
  if lo = [] then none
  else
    let remaining := joinSpace lo
    if pyStrip remaining = [] then none else some remaining

/-- The three remediation-hint categories printed for a failed statement. -/
inductive Hint where
  | synErr
  | noTable
  | fkey
deriving DecidableEq, Repr

/-- Classification of a statement-level error message, by substring match on
the lower-cased message, in the order of the `elif` chain of
`create_database`. -/
def classifyHint (errMsg : List Char) : Option Hint :=
  if containsCI (("syntax error").data) errMsg then some Hint.synErr
  else if containsCI (("no such table").data) errMsg then some Hint.noTable
  else if containsCI (("foreign key").data) errMsg then some Hint.fkey
  else none

/-- One recorded statement-level failure: the statement text, the engine's
raw error message, and the classified hint (if any). -/
structure StmtFailure where
  text : List Char
  errMsg : List Char
  hint : Option Hint
deriving DecidableEq, Repr

/-- Outcome of the statement loop of `create_database`: the engine state
after all statements were attempted, the success counter, and the recorded
failures in order. -/
structure ExecRun (σ : Type) where
  finalState : σ
  succeeded : Nat
  failures : List StmtFailure
deriving DecidableEq, Repr

/-- The statement loop of `create_database`, over an abstract statement
executor `ex` (the external SQLite engine): each statement is submitted
independently; success advances the state and the counter; failure records
the statement, its error message and hint, leaves the state unchanged, and
execution continues with the next statement. -/
def runCommands {σ : Type} (ex : σ → List Char → Except (List Char) σ)
    (s : σ) : List (List Char) → ExecRun σ
  | [] => ⟨s, 0, []⟩
  | cmd :: rest =>
    match ex s cmd with
    | Except.ok s' =>
      let r := runCommands ex s' rest
      ⟨r.finalState, r.succeeded + 1, r.failures⟩
    | Except.error e =>
      let r := runCommands ex s rest
      ⟨r.finalState, r.succeeded, ⟨cmd, e, classifyHint e⟩ :: r.failures⟩

/-- Leading identifier of a statement tail: characters up to a space, an
opening parenthesis or a semicolon. -/
def takeName (l : List Char) : List Char :=
  l.takeWhile (fun c => c ≠ ' ' ∧ c ≠ '(' ∧ c ≠ ';')

/-- Tiny relational state standing in for the target SQLite database:
the set of created tables and the inserted rows. -/
structure ToyDB where
  tables : List (List Char)
  rows : List (List Char × List Char)
deriving DecidableEq, Repr

/-- Modelled from the spec: the external SQLite engine (not part of this
repository) restricted to the two statement forms the partial-commit
scenario needs.  `CREATE TABLE name ...` registers a table; `INSERT INTO
name ...` fails with the engine's `no such table: name` message when the
table has not been created, and otherwise records the row; anything else
fails with a syntax-error message.  A failed statement leaves the database
state unchanged (statement-level atomicity). -/
def toyExec (db : ToyDB) (cmd : List Char) : Except (List Char) ToyDB :=
  match dropPrefixCI (("create table ").data) cmd with
  | some rest => Except.ok ⟨db.tables ++ [takeName rest], db.rows⟩
  | none =>
    match dropPrefixCI (("insert into ").data) cmd with
    | some rest =>
      let t := takeName rest
      if t ∈ db.tables then Except.ok ⟨db.tables, db.rows ++ [(t, rest)]⟩
      else Except.error (("no such table: ").data ++ t)
    | none => Except.error (("near error: syntax error").data)

/-- Environment of one `create_database` run: the outcome of each external
step (validation and stale-file deletion, connection, the foreign-keys
PRAGMA, reading the script file, the final commit), the script text, and
the statement executor with its initial database state. -/
structure DbEnv (σ : Type) where
  preOk : Bool
  connectOk : Bool
  pragmaOk : Bool
  readOk : Bool
  script : List Char
  dbInit : σ
  dbExec : σ → List Char → Except (List Char) σ
  commitOk : Bool

/-- Observable outcome of one `create_database` run: whether it ended in a
raised `DatabaseError`, whether the connection was opened, whether it was
closed before the run ended, the printed total/succeeded counters, and the
committed database state (present only when `conn.commit()` ran). -/
structure DbRunResult (σ : Type) where
  fatal : Bool
  connOpened : Bool
  connClosed : Bool
  report : Option (Nat × Nat)
  committed : Option σ

/-- The control flow of `create_database`.  The connection is opened at
`sqlite3.connect`; the `PRAGMA foreign_keys = ON` statement runs after that
but before the `try`/`finally` block whose `finally` closes the connection,
so a failure of the PRAGMA leaves the connection open; every failure inside
the guarded block (file read, the converter's empty-script error, zero
commands, commit) closes it. -/
def create_database {σ : Type} (env : DbEnv σ) : DbRunResult σ :=
  if env.preOk = false then ⟨true, false, false, none, none⟩
  else if env.connectOk = false then ⟨true, false, false, none, none⟩
  else if env.pragmaOk = false then ⟨true, true, false, none, none⟩
  else if env.readOk = false then ⟨true, true, true, none, none⟩
  else if pyStrip env.script = [] then ⟨true, true, true, none, none⟩
  else
    let cmds := split_sql_commands (applyConversions env.script)
    if cmds = [] then ⟨true, true, true, none, none⟩
    else
      let r := runCommands env.dbExec env.dbInit cmds
      if env.commitOk = false then ⟨true, true, true, none, none⟩
      else ⟨false, true, true, some (cmds.length, r.succeeded), some r.finalState⟩

/-- Statements used for the partial-commit scenario: a table creation, an
insert into a table that was never created, and an insert into the created
table. -/
def demoCmds : List (List Char) :=
  [("CREATE TABLE patients (id INTEGER);").data,
   ("INSERT INTO ghost VALUES (1);").data,
   ("INSERT INTO patients VALUES (1);").data]

/-- The partial-commit scenario as a script, one statement per line. -/
def demoScript : List Char :=
  ("CREATE TABLE patients (id INTEGER);\nINSERT INTO ghost VALUES (1);\nINSERT INTO patients VALUES (1);").data

/-- The head character, when present, is not Python whitespace. -/
def HeadOk (l : List Char) : Prop :=
  ∀ a, l.head? = some a → isPyWs a = false

/-- The last character, when present, is not Python whitespace. -/
def LastOk (l : List Char) : Prop :=
  ∀ a, l.getLast? = some a → isPyWs a = false

/-- Shape of every command emitted by the splitter: non-empty, no leading
or trailing whitespace, terminated by `;`, free of newlines, not a comment
line, and non-empty after `strip('; ')`. -/
structure GoodCmd (c : List Char) : Prop where
  ne : c ≠ []
  headOk : HeadOk c
  lastSemi : c.getLast? = some ';'
  noNl : '\n' ∉ c
  notComment : startsDashDash c = false
  nonTrivial : stripSemiSpace c ≠ []

/-- Shape of every line held in the splitter's pending buffer: a stripped,
non-empty, newline-free line that does not end in the terminator. -/
structure GoodLn (b : List Char) : Prop where
  ne : b ≠ []
  headOk : HeadOk b
  lastOk : LastOk b
  noNl : '\n' ∉ b
  lastNotSemi : b.getLast? ≠ some ';'

/-- Invariant of the pending buffer: every line is well shaped and the
first line is not a comment line. -/
def GoodBuf (buf : List (List Char)) : Prop :=
  (∀ b ∈ buf, GoodLn b) ∧
  (∀ b, buf.head? = some b → startsDashDash b = false)

/-- No `\r` immediately followed by `\n` anywhere in the text, so that
`replace('\r\n', '\n')` is the identity. -/
def noCRLF : List Char → Prop
  | [] => True
  | [_] => True
  | a :: b :: t => ¬(a = '\r' ∧ b = '\n') ∧ noCRLF (b :: t)

/-! ## Helper lemmas on stripping, joining and splitting -/

theorem head_dropWhile_false (p : Char → Bool) (l : List Char) (a : Char)
    (h : (l.dropWhile p).head? = some a) : p a = false := by
  have h' := List.head?_dropWhile_not p l
  rw [h] at h'
  exact h'

theorem dropWhile_eq_self (p : Char → Bool) (l : List Char) (a : Char)
    (ha : l.head? = some a) (hp : p a = false) : l.dropWhile p = l := by
  cases l with
  | nil => rfl
  | cons c cs =>
    simp only [List.head?_cons, Option.some.injEq] at ha
    subst ha
    simp [List.dropWhile_cons, hp]

theorem lstripWs_headOk (l : List Char) : HeadOk (lstripWs l) :=
  fun a h => head_dropWhile_false isPyWs l a h

theorem pyStrip_prefix (l : List Char) : pyStrip l <+: lstripWs l := by
  unfold pyStrip rstripWs
  obtain ⟨t, ht⟩ := List.dropWhile_suffix (l := (lstripWs l).reverse) isPyWs
  refine ⟨t.reverse, ?_⟩
  have h2 := congrArg List.reverse ht
  simpa [List.reverse_append] using h2

theorem pyStrip_headOk (l : List Char) : HeadOk (pyStrip l) := by
  intro a h
  obtain ⟨t, ht⟩ := pyStrip_prefix l
  have hne : pyStrip l ≠ [] := by
    intro hn
    rw [hn] at h
    simp at h
  have h2 : (lstripWs l).head? = some a := by
    rw [← ht, List.head?_append_of_ne_nil _ hne]
    exact h
  exact lstripWs_headOk l a h2

theorem pyStrip_lastOk (l : List Char) : LastOk (pyStrip l) := by
  intro a h
  unfold pyStrip rstripWs at h
  rw [List.getLast?_reverse] at h
  exact head_dropWhile_false isPyWs _ a h

theorem pyStrip_eq_self (l : List Char) (a b : Char)
    (ha : l.head? = some a) (hpa : isPyWs a = false)
    (hb : l.getLast? = some b) (hpb : isPyWs b = false) : pyStrip l = l := by
  have h1 : lstripWs l = l := dropWhile_eq_self isPyWs l a ha hpa
  unfold pyStrip rstripWs
  rw [h1]
  have hb' : l.reverse.head? = some b := by
    rw [List.head?_reverse]
    exact hb
  rw [dropWhile_eq_self isPyWs l.reverse b hb' hpb, List.reverse_reverse]

theorem mem_pyStrip {x : Char} {l : List Char} (h : x ∈ pyStrip l) : x ∈ l := by
  unfold pyStrip rstripWs at h
  rw [List.mem_reverse] at h
  have h2 : x ∈ (lstripWs l).reverse := List.Sublist.mem h (List.dropWhile_sublist _)
  rw [List.mem_reverse] at h2
  exact List.Sublist.mem h2 (List.dropWhile_sublist _)

theorem joinSpace_ne_nil : ∀ (bs : List (List Char)), bs ≠ [] →
    (∀ b ∈ bs, b ≠ []) → joinSpace bs ≠ []
  | [], h, _ => absurd rfl h
  | [b], _, h => by simpa [joinSpace] using h b (by simp)
  | b :: b2 :: t, _, _ => by simp [joinSpace]

theorem joinSpace_head (b : List Char) (bs : List (List Char)) (hb : b ≠ []) :
    (joinSpace (b :: bs)).head? = b.head? := by
  cases bs with
  | nil => rfl
  | cons b2 t => simp [joinSpace, List.head?_append_of_ne_nil _ hb]

theorem joinSpace_last : ∀ (bs : List (List Char)), (∀ b ∈ bs, b ≠ []) →
    ∀ b, bs.getLast? = some b → (joinSpace bs).getLast? = b.getLast?
  | [], _, b, hb => by simp at hb
  | [x], _, b, hb => by
    simp only [List.getLast?_singleton, Option.some.injEq] at hb
    subst hb
    rfl
  | x :: x2 :: t, h, b, hb => by
    rw [List.getLast?_cons_cons] at hb
    have hall : ∀ y ∈ x2 :: t, y ≠ [] := fun y hy => h y (by simp [hy])
    have ih := joinSpace_last (x2 :: t) hall b hb
    have hne : joinSpace (x2 :: t) ≠ [] := joinSpace_ne_nil _ (by simp) hall
    show (x ++ ' ' :: joinSpace (x2 :: t)).getLast? = b.getLast?
    rw [List.getLast?_append_of_ne_nil _ (by simp)]
    cases hj : joinSpace (x2 :: t) with
    | nil => exact absurd hj hne
    | cons y ys =>
      rw [hj] at ih
      rw [List.getLast?_cons_cons]
      exact ih

theorem mem_joinSpace : ∀ (bs : List (List Char)) (x : Char),
    x ∈ joinSpace bs → x = ' ' ∨ ∃ b ∈ bs, x ∈ b
  | [], _, h => by simp [joinSpace] at h
  | [b], x, h => Or.inr ⟨b, by simp, h⟩
  | b :: b2 :: t, x, h => by
    simp only [joinSpace, List.mem_append, List.mem_cons] at h
    rcases h with h | h | h
    · exact Or.inr ⟨b, by simp, h⟩
    · exact Or.inl h
    · rcases mem_joinSpace (b2 :: t) x h with h' | ⟨b', hb', hx⟩
      · exact Or.inl h'
      · exact Or.inr ⟨b', by simp [List.mem_cons] at hb' ⊢; tauto, hx⟩

theorem joinSpace_notComment : ∀ (bs : List (List Char)), (∀ b ∈ bs, b ≠ []) →
    ∀ b0, bs.head? = some b0 → startsDashDash b0 = false →
    startsDashDash (joinSpace bs) = false
  | [], _, b0, hh, _ => by simp at hh
  | [b], _, b0, hh, hc => by
    simp only [List.head?_cons, Option.some.injEq] at hh
    subst hh
    exact hc
  | b :: b2 :: t, hne, b0, hh, hc => by
    simp only [List.head?_cons, Option.some.injEq] at hh
    subst hh
    show startsDashDash (b ++ ' ' :: joinSpace (b2 :: t)) = false
    cases b with
    | nil => exact absurd rfl (hne [] (by simp))
    | cons x xs =>
      cases xs with
      | nil => simp [startsDashDash]
      | cons y ys =>
        have h1 : startsDashDash ((x :: y :: ys) ++ ' ' :: joinSpace (b2 :: t))
            = decide ([x, y] = ['-', '-']) := rfl
        have h2 : startsDashDash (x :: y :: ys) = decide ([x, y] = ['-', '-']) := rfl
        rw [h1, ← h2]
        exact hc

theorem splitOnNl_ne_nil : ∀ (s : List Char), splitOnNl s ≠ []
  | [] => by simp [splitOnNl]
  | c :: rest => by by_cases hc : c = '\n' <;> simp [splitOnNl, hc]

theorem mem_splitOnNl_no_nl : ∀ (s l : List Char), l ∈ splitOnNl s → '\n' ∉ l
  | [], l, h => by
    simp only [splitOnNl, List.mem_singleton] at h
    subst h
    simp
  | c :: rest, l, h => by
    by_cases hc : c = '\n'
    · simp only [splitOnNl, hc, if_true, eq_self_iff_true, List.mem_cons] at h
      rcases h with h | h
      · subst h; simp
      · exact mem_splitOnNl_no_nl rest l h
    · simp only [splitOnNl, if_neg hc, List.mem_cons] at h
      rcases h with h | h
      · subst h
        intro hm
        rcases List.mem_cons.mp hm with h' | h'
        · exact hc h'.symm
        · cases hr : splitOnNl rest with
          | nil => exact absurd hr (splitOnNl_ne_nil rest)
          | cons y ys =>
            have : '\n' ∉ y := mem_splitOnNl_no_nl rest y (by rw [hr]; simp)
            rw [hr] at h'
            exact this h'
      · cases hr : splitOnNl rest with
        | nil => exact absurd hr (splitOnNl_ne_nil rest)
        | cons y ys =>
          rw [hr] at h
          exact mem_splitOnNl_no_nl rest l (by rw [hr]; exact List.mem_of_mem_tail h)

theorem splitOnNl_of_no_nl : ∀ (c : List Char), '\n' ∉ c → splitOnNl c = [c]
  | [], _ => rfl
  | x :: xs, h => by
    have hx : x ≠ '\n' := fun e => h (by simp [e])
    have ih := splitOnNl_of_no_nl xs (fun m => h (by simp [m]))
    simp [splitOnNl, hx, ih]

theorem splitOnNl_append_nl : ∀ (c r : List Char), '\n' ∉ c →
    splitOnNl (c ++ '\n' :: r) = c :: splitOnNl r
  | [], r, _ => by simp [splitOnNl]
  | x :: xs, r, h => by
    have hx : x ≠ '\n' := fun e => h (by simp [e])
    have ih := splitOnNl_append_nl xs r (fun m => h (by simp [m]))
    simp [splitOnNl, hx, ih]

theorem splitOnNl_joinNl : ∀ (cs : List (List Char)), cs ≠ [] →
    (∀ c ∈ cs, '\n' ∉ c) → splitOnNl (joinNl cs) = cs
  | [], h, _ => absurd rfl h
  | [c], _, h => splitOnNl_of_no_nl c (h c (by simp))
  | c :: c2 :: t, _, h => by
    show splitOnNl (c ++ '\n' :: joinNl (c2 :: t)) = c :: c2 :: t
    rw [splitOnNl_append_nl c _ (h c (by simp)),
      splitOnNl_joinNl (c2 :: t) (by simp) (fun x hx => h x (by simp [hx]))]

theorem normCRLF_eq_self : ∀ (l : List Char), noCRLF l → normCRLF l = l
  | [], _ => rfl
  | [_], _ => rfl
  | a :: b :: t, h => by
    obtain ⟨h1, h2⟩ := h
    show normCRLF (a :: b :: t) = a :: b :: t
    rw [normCRLF, if_neg h1, normCRLF_eq_self (b :: t) h2]

theorem noCRLF_of_no_nl : ∀ (l : List Char), '\n' ∉ l → noCRLF l
  | [], _ => trivial
  | [_], _ => trivial
  | a :: b :: t, h =>
    ⟨fun hh => h (by simp [hh.2]),
      noCRLF_of_no_nl (b :: t) (fun m => h (List.mem_cons_of_mem a m))⟩

theorem noCRLF_cons (a : Char) (t : List Char) (ha : a ≠ '\r')
    (ht : noCRLF t) : noCRLF (a :: t) := by
  cases t with
  | nil => trivial
  | cons b t' => exact ⟨fun hh => ha hh.1, ht⟩

theorem noCRLF_append : ∀ (xs r : List Char), '\n' ∉ xs →
    xs.getLast? = some ';' → noCRLF r → noCRLF (xs ++ r)
  | [], _, _, hl, _ => by simp at hl
  | [x], r, _, hl, hr => by
    have hx : x = ';' := by simpa using hl
    subst hx
    exact noCRLF_cons ';' r (by decide) hr
  | x :: y :: t, r, hn, hl, hr => by
    rw [List.getLast?_cons_cons] at hl
    have ih := noCRLF_append (y :: t) r (fun m => hn (List.mem_cons_of_mem x m)) hl hr
    have hy : y ≠ '\n' := fun e => hn (by simp [e])
    show noCRLF (x :: (y :: (t ++ r)))
    exact ⟨fun hh => hy hh.2, ih⟩

theorem noCRLF_joinNl : ∀ (cs : List (List Char)),
    (∀ c ∈ cs, '\n' ∉ c ∧ c.getLast? = some ';') → noCRLF (joinNl cs)
  | [], _ => trivial
  | [c], h => noCRLF_of_no_nl c (h c (by simp)).1
  | c :: c2 :: t, h => by
    have hc := h c (by simp)
    have ih := noCRLF_joinNl (c2 :: t) (fun x hx => h x (by simp [hx]))
    show noCRLF (c ++ '\n' :: joinNl (c2 :: t))
    exact noCRLF_append c _ hc.1 hc.2 (noCRLF_cons '\n' _ (by decide) ih)

theorem firstIdx_none (p : Char → Bool) : ∀ (l : List Char),
    (∀ x ∈ l, p x = false) → firstIdx p l = none
  | [], _ => rfl
  | c :: cs, h => by
    rw [firstIdx, if_neg (by simp [h c (by simp)]),
      firstIdx_none p cs (fun x hx => h x (by simp [hx]))]
    rfl

theorem firstIdx_spec (p : Char → Bool) : ∀ (l : List Char) (k : Nat),
    firstIdx p l = some k →
    ∃ pre a suf, l = pre ++ a :: suf ∧ pre.length = k ∧ p a = true ∧
      ∀ x ∈ pre, p x = false
  | [], k, h => by simp [firstIdx] at h
  | c :: cs, k, h => by
    rw [firstIdx] at h
    by_cases hpc : p c = true
    · rw [if_pos hpc] at h
      have hk : k = 0 := by simpa using h.symm
      subst hk
      exact ⟨[], c, cs, rfl, rfl, hpc, by simp⟩
    · rw [if_neg hpc] at h
      cases hcs : firstIdx p cs with
      | none => rw [hcs] at h; exact absurd h (by simp)
      | some n =>
        rw [hcs] at h
        have hk : n + 1 = k := by simpa using h
        obtain ⟨pre, a, suf, h1, h2, h3, h4⟩ := firstIdx_spec p cs n hcs
        refine ⟨c :: pre, a, suf, by simp [h1], by simp [h2, ← hk], h3, ?_⟩
        intro x hx
        rcases List.mem_cons.mp hx with hxc | hxc
        · subst hxc
          simpa using hpc
        · exact h4 x hxc

theorem lastIdx_none (p : Char → Bool) : ∀ (l : List Char),
    lastIdx p l = none → ∀ x ∈ l, p x = false
  | [], _, x, hx => absurd hx (List.not_mem_nil x)
  | c :: cs, h, x, hx => by
    rw [lastIdx] at h
    cases hcs : lastIdx p cs with
    | some n => rw [hcs] at h; exact absurd h (by simp)
    | none =>
      rw [hcs] at h
      by_cases hpc : p c = true
      · rw [if_pos hpc] at h
        exact absurd h (by simp)
      · rcases List.mem_cons.mp hx with hxc | hxc
        · subst hxc
          simpa using hpc
        · exact lastIdx_none p cs hcs x hxc

theorem lastIdx_spec (p : Char → Bool) : ∀ (l : List Char) (k : Nat),
    lastIdx p l = some k →
    ∃ pre a suf, l = pre ++ a :: suf ∧ pre.length = k ∧ p a = true ∧
      ∀ x ∈ suf, p x = false
  | [], k, h => by simp [lastIdx] at h
  | c :: cs, k, h => by
    rw [lastIdx] at h
    cases hcs : lastIdx p cs with
    | some n =>
      rw [hcs] at h
      have hk : n + 1 = k := by simpa using h
      obtain ⟨pre, a, suf, h1, h2, h3, h4⟩ := lastIdx_spec p cs n hcs
      exact ⟨c :: pre, a, suf, by simp [h1], by simp [h2, ← hk], h3, h4⟩
    | none =>
      rw [hcs] at h
      by_cases hpc : p c = true
      · rw [if_pos hpc] at h
        have hk : k = 0 := by simpa using h.symm
        subst hk
        exact ⟨[], c, cs, rfl, rfl, hpc, lastIdx_none p cs hcs⟩
      · rw [if_neg hpc] at h
        exact absurd h (by simp)

theorem dropPrefixCI_spec : ∀ (p l m : List Char), dropPrefixCI p l = some m →
    ∃ kw, l = kw ++ m ∧ kw.map asciiLower = p.map asciiLower
  | [], l, m, h => by
    have hlm : l = m := by simpa [dropPrefixCI] using h
    exact ⟨[], by simp [hlm], rfl⟩
  | _ :: _, [], m, h => by simp [dropPrefixCI] at h
  | p0 :: ps, c :: cs, m, h => by
    rw [dropPrefixCI] at h
    by_cases hc : asciiLower c = asciiLower p0
    · rw [if_pos hc] at h
      obtain ⟨kw, h1, h2⟩ := dropPrefixCI_spec ps cs m h
      exact ⟨c :: kw, by simp [h1], by simp [h2, hc]⟩
    · rw [if_neg hc] at h
      exact absurd h (by simp)

theorem drop_append_cons : ∀ (pre : List Char) (a : Char) (suf : List Char),
    (pre ++ a :: suf).drop (pre.length + 1) = suf
  | [], a, suf => by simp
  | c :: pre, a, suf => by
    show ((c :: pre) ++ a :: suf).drop (pre.length + 1 + 1) = suf
    rw [List.cons_append, List.drop_succ_cons]
    exact drop_append_cons pre a suf

theorem takeWhile_append_of_all (p : Char → Bool) : ∀ (xs ys : List Char),
    (∀ x ∈ xs, p x = true) → (xs ++ ys).takeWhile p = xs ++ ys.takeWhile p
  | [], ys, _ => rfl
  | c :: xs, ys, h => by
    rw [List.cons_append, List.takeWhile_cons, if_pos (h c (by simp)),
      takeWhile_append_of_all p xs ys (fun x hx => h x (by simp [hx]))]
    rfl

theorem takeWhile_dropWhile_nil (p : Char → Bool) (l : List Char) :
    (l.dropWhile p).takeWhile p = [] := by
  cases hd : l.dropWhile p with
  | nil => rfl
  | cons c cs =>
    have hh := List.head?_dropWhile_not p l
    rw [hd] at hh
    simp only [List.head?_cons] at hh
    rw [List.takeWhile_cons, if_neg (by simp [hh])]

theorem lazySemi_spec (l r : List Char) (h : lazySemi l = some r) :
    ∃ pre, l = pre ++ ';' :: r ∧ '\n' ∉ pre ∧ ';' ∉ pre := by
  cases hfi : firstIdx (fun c => c = ';') (l.takeWhile (fun c => c ≠ '\n')) with
  | none =>
    simp only [lazySemi, hfi] at h
    exact absurd h (by simp)
  | some k =>
    simp only [lazySemi, hfi, Option.some.injEq] at h
    have hr : l.drop (k + 1) = r := h
    obtain ⟨pre, a, suf, h1, h2, h3, h4⟩ := firstIdx_spec _ _ k hfi
    have ha : a = ';' := by simpa using h3
    subst ha
    have hl : l = pre ++ ';' :: (suf ++ l.dropWhile (fun c => c ≠ '\n')) := by
      conv_lhs => rw [← List.takeWhile_append_dropWhile (fun c => c ≠ '\n') l]
      rw [h1]
      simp
    have hrval : r = suf ++ l.dropWhile (fun c => c ≠ '\n') := by
      rw [← hr, ← h2]
      conv_lhs => rw [hl]
      exact drop_append_cons pre ';' _
    refine ⟨pre, by rw [hl, hrval], ?_, ?_⟩
    · intro hm
      have hmem : '\n' ∈ l.takeWhile (fun c => c ≠ '\n') := by
        rw [h1]
        exact List.mem_append_left _ hm
      have hval := List.mem_takeWhile_imp hmem
      simp at hval
    · intro hm
      simpa using h4 ';' hm

theorem lazySemi_none (l : List Char)
    (h : ';' ∉ l.takeWhile (fun c => c ≠ '\n')) : lazySemi l = none := by
  have hf : firstIdx (fun c => c = ';') (l.takeWhile (fun c => c ≠ '\n')) = none :=
    firstIdx_none _ _ (fun x hx => by
      simp only [decide_eq_false_iff_not]
      intro hxs
      subst hxs
      exact h hx)
  simp only [lazySemi, hf]

theorem greedyDotRParen_spec (l r : List Char) (h : greedyDotRParen l = some r) :
    ∃ mid, l = mid ++ ')' :: r ∧ mid ≠ [] ∧ '\n' ∉ mid ∧
      ')' ∉ r.takeWhile (fun c => c ≠ '\n') := by
  cases hli : lastIdx (fun c => c = ')') (l.takeWhile (fun c => c ≠ '\n')) with
  | none =>
    simp only [greedyDotRParen, hli] at h
    exact absurd h (by simp)
  | some k =>
    simp only [greedyDotRParen, hli] at h
    by_cases hk : 1 ≤ k
    · rw [if_pos hk] at h
      have hr : l.drop (k + 1) = r := by simpa using h
      obtain ⟨pre, a, suf, h1, h2, h3, h4⟩ := lastIdx_spec _ _ k hli
      have ha : a = ')' := by simpa using h3
      subst ha
      have hsufnl : ∀ x ∈ suf, (fun c => decide (c ≠ '\n')) x = true := by
        intro x hx
        have hmem : x ∈ l.takeWhile (fun c => c ≠ '\n') := by
          rw [h1]
          simp [hx]
        have hval := List.mem_takeWhile_imp hmem
        exact hval
      have hl : l = pre ++ ')' :: (suf ++ l.dropWhile (fun c => c ≠ '\n')) := by
        conv_lhs => rw [← List.takeWhile_append_dropWhile (fun c => c ≠ '\n') l]
        rw [h1]
        simp
      have hrval : r = suf ++ l.dropWhile (fun c => c ≠ '\n') := by
        rw [← hr, ← h2]
        conv_lhs => rw [hl]
        exact drop_append_cons pre ')' _
      refine ⟨pre, by rw [hl, hrval], ?_, ?_, ?_⟩
      · intro hpre
        rw [hpre] at h2
        simp at h2
        omega
      · intro hm
        have hmem : '\n' ∈ l.takeWhile (fun c => c ≠ '\n') := by
          rw [h1]
          exact List.mem_append_left _ hm
        have hval := List.mem_takeWhile_imp hmem
        simp at hval
      · rw [hrval, takeWhile_append_of_all _ _ _ hsufnl,
          takeWhile_dropWhile_nil]
        intro hm
        rw [List.append_nil] at hm
        simpa using h4 ')' hm
    · rw [if_neg hk] at h
      exact absurd h (by simp)

theorem reSubF_id (m : List Char → Option (List Char)) (repl : List Char) :
    ∀ (fuel : Nat) (l : List Char), (∀ t, t <:+ l → m t = none) →
    reSubF m repl fuel l = l
  | 0, _, _ => rfl
  | _ + 1, [], _ => rfl
  | fuel + 1, c :: cs, h => by
    rw [reSubF, h (c :: cs) (List.suffix_refl _),
      reSubF_id m repl fuel cs (fun t ht => h t (ht.trans (List.suffix_cons c cs)))]

theorem reSub_id_of_no_match (m : List Char → Option (List Char))
    (repl : List Char) (s : List Char) (hnil : m [] = none)
    (h : ∀ i, i < s.length → m (s.drop i) = none) : reSub m repl s = s := by
  apply reSubF_id
  intro t ht
  obtain ⟨pre, hpre⟩ := ht
  by_cases hto : t = []
  · subst hto
    exact hnil
  · have hts : t = s.drop pre.length := by
      rw [← hpre, List.drop_left]
    rw [hts]
    apply h
    rw [← hpre, List.length_append]
    have : 0 < t.length := List.length_pos.mpr hto
    omega

theorem goodBuf_nil : GoodBuf [] :=
  ⟨fun b hb => absurd hb (List.not_mem_nil b), fun b hb => by simp at hb⟩

theorem splitGo_clean : ∀ (cs : List (List Char)), (∀ c ∈ cs, GoodCmd c) →
    splitGo cs [] = ⟨cs, []⟩
  | [], _ => rfl
  | c :: rest, h => by
    obtain ⟨hne, hheadOk, hlastSemi, _, hnotComment, hnonTrivial⟩ := h c (by simp)
    obtain ⟨a, ha⟩ : ∃ a, c.head? = some a := by
      cases c with
      | nil => exact absurd rfl hne
      | cons a t => exact ⟨a, rfl⟩
    have hps : pyStrip c = c :=
      pyStrip_eq_self c a ';' ha (hheadOk a ha) hlastSemi (by decide)
    have ih := splitGo_clean rest (fun x hx => h x (by simp [hx]))
    show splitGo (c :: rest) [] = ⟨c :: rest, []⟩
    simp only [splitGo, hps, hne, hnotComment, hlastSemi, if_neg, if_pos,
      Bool.false_eq_true, if_false, List.nil_append, joinSpace, hnonTrivial, ih]

theorem splitGo_good (lines : List (List Char)) : ∀ (buf : List (List Char)),
    (∀ l ∈ lines, '\n' ∉ l) → GoodBuf buf →
    (∀ c ∈ (splitGo lines buf).commands, GoodCmd c) ∧
    GoodBuf (splitGo lines buf).leftover := by
  induction lines with
  | nil =>
    intro buf _ hb
    exact ⟨fun c hc => absurd hc (List.not_mem_nil c), hb⟩
  | cons ln rest ih =>
    intro buf hl hb
    have hln : '\n' ∉ ln := hl ln (by simp)
    have hrest : ∀ l ∈ rest, '\n' ∉ l := fun x hx => hl x (by simp [hx])
    by_cases h1 : pyStrip ln = []
    · simpa only [splitGo, h1, if_pos] using ih buf hrest hb
    · by_cases h2 : startsDashDash (pyStrip ln) = true
      · simpa only [splitGo, h1, h2, if_neg, if_pos, if_true] using ih buf hrest hb
      · have hheadOk : HeadOk (pyStrip ln) := pyStrip_headOk ln
        have hlastOk : LastOk (pyStrip ln) := pyStrip_lastOk ln
        have hnoNl : '\n' ∉ pyStrip ln := fun m => hln (mem_pyStrip m)
        have h2' : startsDashDash (pyStrip ln) = false := by
          cases hsd : startsDashDash (pyStrip ln) with
          | false => rfl
          | true => exact absurd hsd h2
        by_cases h3 : (pyStrip ln).getLast? = some ';'
        · -- a command is closed on this line
          have hbufne : ∀ b ∈ buf ++ [pyStrip ln], b ≠ [] := by
            intro b hbmem
            rcases List.mem_append.mp hbmem with hm | hm
            · exact (hb.1 b hm).ne
            · simp only [List.mem_singleton] at hm
              subst hm
              exact h1
          have hcmdGood : stripSemiSpace (joinSpace (buf ++ [pyStrip ln])) ≠ [] →
              GoodCmd (joinSpace (buf ++ [pyStrip ln])) := by
            intro hst
            refine ⟨joinSpace_ne_nil _ (by simp) hbufne, ?_, ?_, ?_, ?_, hst⟩
            · -- head is not whitespace
              intro a haa
              cases hbuf : buf with
              | nil =>
                rw [hbuf] at haa
                exact hheadOk a haa
              | cons b bt =>
                rw [hbuf] at haa
                rw [show (b :: bt) ++ [pyStrip ln] = b :: (bt ++ [pyStrip ln]) from rfl,
                  joinSpace_head b _ (hb.1 b (by rw [hbuf]; simp)).ne] at haa
                exact (hb.1 b (by rw [hbuf]; simp)).headOk a haa
            · -- ends with the terminator
              rw [joinSpace_last _ hbufne (pyStrip ln) (List.getLast?_concat _)]
              exact h3
            · -- no newline
              intro m
              rcases mem_joinSpace _ '\n' m with hsp | ⟨b, hbm, hxb⟩
              · exact absurd hsp (by decide)
              · rcases List.mem_append.mp hbm with hm | hm
                · exact (hb.1 b hm).noNl hxb
                · simp only [List.mem_singleton] at hm
                  subst hm
                  exact hnoNl hxb
            · -- not a comment line
              cases hbuf : buf with
              | nil =>
                rw [hbuf] at hbufne
                exact joinSpace_notComment _ hbufne (pyStrip ln) rfl h2'
              | cons b bt =>
                rw [hbuf] at hbufne
                exact joinSpace_notComment _ hbufne b rfl (hb.2 b (by rw [hbuf]; rfl))
          have ihr := ih [] hrest goodBuf_nil
          show (∀ c ∈ (splitGo (ln :: rest) buf).commands, GoodCmd c) ∧
            GoodBuf (splitGo (ln :: rest) buf).leftover
          by_cases h4 : stripSemiSpace (joinSpace (buf ++ [pyStrip ln])) = []
          · simp only [splitGo, h1, h2', h3, h4, if_neg, if_pos, if_true,
              Bool.false_eq_true, if_false]
            exact ihr
          · simp only [splitGo, h1, h2', h3, h4, if_neg, if_pos, if_true,
              Bool.false_eq_true, if_false]
            refine ⟨?_, ihr.2⟩
            intro c hc
            rcases List.mem_cons.mp hc with hc | hc
            · subst hc
              exact hcmdGood h4
            · exact ihr.1 c hc
        · -- line appended to the pending buffer
          have hgood : GoodBuf (buf ++ [pyStrip ln]) := by
            constructor
            · intro b hbmem
              rcases List.mem_append.mp hbmem with hm | hm
              · exact hb.1 b hm
              · simp only [List.mem_singleton] at hm
                subst hm
                exact ⟨h1, hheadOk, hlastOk, hnoNl, h3⟩
            · intro b hbh
              cases hbuf : buf with
              | nil =>
                rw [hbuf] at hbh
                simp only [List.nil_append, List.head?_cons, Option.some.injEq] at hbh
                subst hbh
                exact h2'
              | cons b0 bt =>
                rw [hbuf] at hbh
                simp only [List.cons_append, List.head?_cons, Option.some.injEq] at hbh
                subst hbh
                exact hb.2 b0 (by rw [hbuf]; rfl)
          simpa only [splitGo, h1, h2', h3, if_neg, if_pos, if_true,
            Bool.false_eq_true, if_false] using ih (buf ++ [pyStrip ln]) hrest hgood

/-! ## Claim theorems -/

/-- C4: the converter performs the stated type rewrites case-insensitively:
`varchar(255) NOT NULL` converts to `TEXT NOT NULL`, `int(11)` converts to
`INTEGER`, and both `decimal(10,2)` and `double(8,2)` convert to `REAL`. -/
theorem claim4_type_rewrites :
    convert_mysql_to_sqlite (("varchar(255) NOT NULL").data)
        = Except.ok (("TEXT NOT NULL").data) ∧
    convert_mysql_to_sqlite (("int(11)").data) = Except.ok (("INTEGER").data) ∧
    convert_mysql_to_sqlite (("decimal(10,2)").data) = Except.ok (("REAL").data) ∧
    convert_mysql_to_sqlite (("double(8,2)").data) = Except.ok (("REAL").data) ∧
    convert_mysql_to_sqlite (("VARCHAR(255) NOT NULL").data)
        = Except.ok (("TEXT NOT NULL").data) ∧
    convert_mysql_to_sqlite (("INT(11)").data) = Except.ok (("INTEGER").data) ∧
    convert_mysql_to_sqlite (("DECIMAL(10,2)").data) = Except.ok (("REAL").data) ∧
    convert_mysql_to_sqlite (("DOUBLE(8,2)").data) = Except.ok (("REAL").data) :=
  ⟨rfl, rfl, rfl, rfl, rfl, rfl, rfl, rfl⟩

/-- C5: converting then splitting the script
`CREATE DATABASE hospital; USE hospital; CREATE TABLE t (id int(11));`
yields no CREATE DATABASE or USE statement and exactly one statement,
`CREATE TABLE t (id INTEGER);`. -/
theorem claim5_pipeline_example :
    convert_mysql_to_sqlite
        (("CREATE DATABASE hospital; USE hospital; CREATE TABLE t (id int(11));").data)
      = Except.ok (("  CREATE TABLE t (id INTEGER);").data) ∧
    split_sql_commands (("  CREATE TABLE t (id INTEGER);").data)
      = [("CREATE TABLE t (id INTEGER);").data] ∧
    containsCI (("create database").data) (("  CREATE TABLE t (id INTEGER);").data) = false ∧
    containsCI (("use").data) (("  CREATE TABLE t (id INTEGER);").data) = false :=
  ⟨rfl, rfl, rfl, rfl⟩

/-- C6: the converter fails with the empty-script error exactly when its
input is empty or whitespace-only; any input with a non-whitespace
character is converted without that error. -/
theorem claim6_empty_script_iff (s : List Char) :
    convert_mysql_to_sqlite s = Except.error emptyScriptMsg ↔ pyStrip s = [] := by
  unfold convert_mysql_to_sqlite
  by_cases h : pyStrip s = [] <;> simp [h]

/-- C10: the USE removal rule has no word-boundary anchoring: on
`CREATE TABLE t (house_id INTEGER);`, a script with no USE statement at
all, the converter matches the `use` inside `house_id` and removes text
through the next semicolon, returning `CREATE TABLE t (ho`. -/
theorem claim10_use_inside_identifier :
    convert_mysql_to_sqlite (("CREATE TABLE t (house_id INTEGER);").data)
      = Except.ok (("CREATE TABLE t (ho").data) := rfl

/-- C2 counterexample: the decimal/double rewrite is not bounded to the
type's own parameter list.  On the single line
`price decimal(10,2) CHECK (price > 0)` the claim predicts
`price REAL CHECK (price > 0)`; the converter instead consumes through the
last closing parenthesis of the line and returns `price REAL`. -/
theorem claim2_counterexample :
    applyConversions (("price decimal(10,2) CHECK (price > 0)").data)
      = ("price REAL").data ∧
    ("price REAL").data ≠ ("price REAL CHECK (price > 0)").data :=
  ⟨rfl, by decide⟩

/-- C2 amended: the decimal/double rewrite is greedy within one line: for
every match of the decimal/double rule, the span replaced by REAL runs from
the case-insensitive type keyword through a closing parenthesis that is the
last one on its line — at least one character lies between the parentheses,
the consumed span contains no newline, and no closing parenthesis remains
between the match's end and the next newline — so any text between the
parameter list's own closing parenthesis and the line's last closing
parenthesis is consumed (e.g. `price decimal(10,2) CHECK (price > 0)`
becomes `price REAL`), while following lines survive. -/
theorem claim2_amended_greedy_rewrite :
    (∀ l r, mDecimal l = some r →
      ∃ kw mid, l = kw ++ mid ++ ')' :: r ∧
        kw.map asciiLower = ("decimal(").data ∧
        mid ≠ [] ∧ '\n' ∉ mid ∧ ')' ∉ r.takeWhile (fun c => c ≠ '\n')) ∧
    (∀ l r, mDouble l = some r →
      ∃ kw mid, l = kw ++ mid ++ ')' :: r ∧
        kw.map asciiLower = ("double(").data ∧
        mid ≠ [] ∧ '\n' ∉ mid ∧ ')' ∉ r.takeWhile (fun c => c ≠ '\n')) ∧
    applyConversions (("price decimal(10,2) CHECK (price > 0)").data)
      = ("price REAL").data ∧
    applyConversions (("tax double(8,2) CHECK (tax > 0)").data)
      = ("tax REAL").data ∧
    applyConversions (("a decimal(1,2) x)\nb (c)").data)
      = ("a REAL\nb (c)").data := by
  refine ⟨?_, ?_, rfl, rfl, rfl⟩
  · intro l r h
    rw [mDecimal] at h
    obtain ⟨m, hd, hg⟩ := Option.bind_eq_some.mp h
    obtain ⟨kw, hkw1, hkw2⟩ := dropPrefixCI_spec _ _ _ hd
    obtain ⟨mid, hmid1, hmid2, hmid3, hmid4⟩ := greedyDotRParen_spec m r hg
    refine ⟨kw, mid, by rw [hkw1, hmid1, List.append_assoc], ?_, hmid2, hmid3, hmid4⟩
    rw [hkw2]
    decide
  · intro l r h
    rw [mDouble] at h
    obtain ⟨m, hd, hg⟩ := Option.bind_eq_some.mp h
    obtain ⟨kw, hkw1, hkw2⟩ := dropPrefixCI_spec _ _ _ hd
    obtain ⟨mid, hmid1, hmid2, hmid3, hmid4⟩ := greedyDotRParen_spec m r hg
    refine ⟨kw, mid, by rw [hkw1, hmid1, List.append_assoc], ?_, hmid2, hmid3, hmid4⟩
    rw [hkw2]
    decide

/-- C2 witness: the decimal law applied to a line whose last closing
parenthesis ends the line. -/
theorem claim2_witness :
    ∃ kw mid, ("decimal(10,2) CHECK (x > 0)").data
        = kw ++ mid ++ ')' :: ([] : List Char) ∧
      kw.map asciiLower = ("decimal(").data ∧
      mid ≠ [] ∧ '\n' ∉ mid ∧
      ')' ∉ ([] : List Char).takeWhile (fun c => c ≠ '\n') :=
  claim2_amended_greedy_rewrite.1 (("decimal(10,2) CHECK (x > 0)").data) [] rfl

/-- C3 counterexample: the CREATE DATABASE and USE removal rules do not
match across line boundaries.  On `CREATE DATABASE\nhospital;` (terminating
semicolon on the next line) the claim predicts removal of the whole
statement; the converter leaves the script unchanged, CREATE DATABASE still
present. -/
theorem claim3_counterexample :
    applyConversions (("CREATE DATABASE\nhospital;").data)
      = ("CREATE DATABASE\nhospital;").data ∧
    containsCI (("create database").data) (("CREATE DATABASE\nhospital;").data)
      = true :=
  ⟨rfl, rfl⟩

/-- C7: splitting is idempotent on its own output: joining the statements
produced by the splitter one per line and splitting again returns exactly
the same statement sequence, for every input script. -/
theorem claim7_split_idempotent (s : List Char) :
    split_sql_commands (joinNl (split_sql_commands s)) = split_sql_commands s := by
  have hlines : ∀ l ∈ splitOnNl (normCRLF s), '\n' ∉ l :=
    fun l hl => mem_splitOnNl_no_nl (normCRLF s) l hl
  have hgood : ∀ c ∈ split_sql_commands s, GoodCmd c :=
    (splitGo_good (splitOnNl (normCRLF s)) [] hlines goodBuf_nil).1
  cases hcs : split_sql_commands s with
  | nil => rfl
  | cons c cs =>
    rw [hcs] at hgood
    show (splitGo (splitOnNl (normCRLF (joinNl (c :: cs)))) []).commands = c :: cs
    rw [normCRLF_eq_self _ (noCRLF_joinNl _
        (fun x hx => ⟨(hgood x hx).noNl, (hgood x hx).lastSemi⟩)),
      splitOnNl_joinNl _ (by simp) (fun x hx => (hgood x hx).noNl),
      splitGo_clean _ hgood]

/-- C7 witness: a concrete instance of the idempotence theorem. -/
theorem claim7_witness :
    split_sql_commands (joinNl (split_sql_commands
        (("CREATE TABLE a (x INTEGER);\nINSERT INTO a\nVALUES (1);").data)))
      = split_sql_commands
        (("CREATE TABLE a (x INTEGER);\nINSERT INTO a\nVALUES (1);").data) :=
  claim7_split_idempotent (("CREATE TABLE a (x INTEGER);\nINSERT INTO a\nVALUES (1);").data)

/-- C8: the splitter is total and handles a missing trailing terminator
without raising: when the run ends with a non-empty pending buffer, the
incomplete trailing statement is not among the returned statements and the
non-fatal warning carrying its text is emitted. -/
theorem claim8_trailing_incomplete (s : List Char)
    (h : (split_full s).leftover ≠ []) :
    splitWarning s = some (joinSpace (split_full s).leftover) ∧
    joinSpace (split_full s).leftover ∉ split_sql_commands s := by
  have hlines : ∀ l ∈ splitOnNl (normCRLF s), '\n' ∉ l :=
    fun l hl => mem_splitOnNl_no_nl (normCRLF s) l hl
  have hmain := splitGo_good (splitOnNl (normCRLF s)) [] hlines goodBuf_nil
  have hcmds : ∀ c ∈ split_sql_commands s, GoodCmd c := hmain.1
  have hbufAll : ∀ b ∈ (split_full s).leftover, GoodLn b := hmain.2.1
  have hneAll : ∀ b ∈ (split_full s).leftover, b ≠ [] :=
    fun b hb => (hbufAll b hb).ne
  -- the head and last characters of the joined leftover are not whitespace
  obtain ⟨b0, t0, hlo⟩ : ∃ b0 t0, (split_full s).leftover = b0 :: t0 := by
    cases hl : (split_full s).leftover with
    | nil => exact absurd hl h
    | cons x xs => exact ⟨x, xs, rfl⟩
  obtain ⟨bl, hbl⟩ : ∃ bl, (split_full s).leftover.getLast? = some bl := by
    have := List.getLast?_isSome.mpr h
    exact Option.isSome_iff_exists.mp this
  have hb0 : GoodLn b0 := hbufAll b0 (by rw [hlo]; simp)
  have hblG : GoodLn bl := hbufAll bl (List.mem_of_mem_getLast? hbl)
  obtain ⟨a0, ha0⟩ : ∃ a0, b0.head? = some a0 := by
    cases hbb : b0 with
    | nil => exact absurd hbb hb0.ne
    | cons x xs => exact ⟨x, rfl⟩
  obtain ⟨al, hal⟩ : ∃ al, bl.getLast? = some al := by
    have := List.getLast?_isSome.mpr hblG.ne
    exact Option.isSome_iff_exists.mp this
  have hheadJ : (joinSpace (split_full s).leftover).head? = some a0 := by
    rw [hlo, joinSpace_head b0 t0 hb0.ne]
    exact ha0
  have hlastJ : (joinSpace (split_full s).leftover).getLast? = some al := by
    rw [joinSpace_last _ hneAll bl hbl]
    exact hal
  have hstrip : pyStrip (joinSpace (split_full s).leftover)
      = joinSpace (split_full s).leftover :=
    pyStrip_eq_self _ a0 al hheadJ (hb0.headOk a0 ha0) hlastJ (hblG.lastOk al hal)
  have hjne : joinSpace (split_full s).leftover ≠ [] :=
    joinSpace_ne_nil _ h hneAll
  constructor
  · unfold splitWarning
    simp only [h, if_neg, hstrip, hjne, if_false]
  · intro hmem
    have hsemi := (hcmds _ hmem).lastSemi
    rw [hlastJ] at hsemi
    have hals : al = ';' := by simpa using hsemi
    subst hals
    exact hblG.lastNotSemi hal

/-- C8 witness: a concrete script ending in an unterminated statement. -/
theorem claim8_witness :
    splitWarning (("a;\nCREATE TABLE t (").data) = some (("CREATE TABLE t (").data) ∧
    ("CREATE TABLE t (").data ∉ split_sql_commands (("a;\nCREATE TABLE t (").data) :=
  claim8_trailing_incomplete (("a;\nCREATE TABLE t (").data) (by decide)

/-- C1: a statement-level failure is recorded (incrementing the failed
side of the counters) and does not abort the batch, for any engine and any
statement sequence; succeeded plus failed always equals the total; and in
the concrete three-statement scenario whose middle statement inserts into
a non-existent table the loop reports 2 successes and 1 failure carrying
the missing-table hint, and the state committed at the end contains the
effects of both successful statements (partial commit). -/
theorem claim1_failure_keeps_batch_going :
    (∀ (σ : Type) (ex : σ → List Char → Except (List Char) σ) (s : σ)
        (cmd e : List Char) (rest : List (List Char)),
        ex s cmd = Except.error e →
        runCommands ex s (cmd :: rest) =
          ⟨(runCommands ex s rest).finalState, (runCommands ex s rest).succeeded,
            ⟨cmd, e, classifyHint e⟩ :: (runCommands ex s rest).failures⟩) ∧
    (∀ (σ : Type) (ex : σ → List Char → Except (List Char) σ) (s : σ)
        (cmds : List (List Char)),
        (runCommands ex s cmds).succeeded + (runCommands ex s cmds).failures.length
          = cmds.length) ∧
    runCommands toyExec ⟨[], []⟩ demoCmds =
      ⟨⟨[("patients").data], [(("patients").data, ("patients VALUES (1);").data)]⟩,
        2,
        [⟨("INSERT INTO ghost VALUES (1);").data, ("no such table: ghost").data,
          some Hint.noTable⟩]⟩ ∧
    (create_database (DbEnv.mk true true true true demoScript (ToyDB.mk [] [])
        toyExec true)).report = some (3, 2) ∧
    (create_database (DbEnv.mk true true true true demoScript (ToyDB.mk [] [])
        toyExec true)).committed =
      some (ToyDB.mk [("patients").data]
        [(("patients").data, ("patients VALUES (1);").data)]) := by
  refine ⟨?_, ?_, rfl, by decide, by decide⟩
  · intro σ ex s cmd e rest hE
    simp [runCommands, hE]
  · intro σ ex s cmds
    induction cmds generalizing s with
    | nil => simp [runCommands]
    | cons cmd rest ihc =>
      cases hE : ex s cmd with
      | ok s' =>
        have hr := ihc s'
        simp only [runCommands, hE, List.length_cons]
        omega
      | error e =>
        have hr := ihc s
        simp only [runCommands, hE, List.length_cons]
        omega

set_option maxHeartbeats 1600000 in
/-- C1 witness: the continuation law applied to the failing insert. -/
theorem claim1_witness :
    runCommands toyExec ⟨[], []⟩ [("INSERT INTO ghost VALUES (1);").data] =
      ⟨⟨[], []⟩, 0,
        [⟨("INSERT INTO ghost VALUES (1);").data, ("no such table: ghost").data,
          some Hint.noTable⟩]⟩ := by
  have hcont := claim1_failure_keeps_batch_going.1 ToyDB toyExec ⟨[], []⟩
    (("INSERT INTO ghost VALUES (1);").data) (("no such table: ghost").data)
    [] rfl
  rw [hcont]
  rfl

/-- C9 counterexample: a run in which the foreign-keys PRAGMA fails after
the connection was opened ends with the connection still open, because the
PRAGMA runs before the block whose cleanup closes the connection. -/
theorem claim9_counterexample :
    (create_database (DbEnv.mk true true false true (("x").data) ()
        (fun s _ => Except.ok s) true)).connOpened = true ∧
    (create_database (DbEnv.mk true true false true (("x").data) ()
        (fun s _ => Except.ok s) true)).connClosed = false :=
  ⟨rfl, rfl⟩

/-- C9 amended: on every exit path of a run in which the foreign-keys
PRAGMA succeeds — success, partial statement failure, or an exception in
the guarded block (read failure, empty script, zero statements, commit
failure) — an opened connection is closed before the run ends; the one
exit path that leaks the connection is an exception between opening the
connection and entering the guarded block (the PRAGMA). -/
theorem claim9_amended_release {σ : Type} (env : DbEnv σ)
    (hp : env.pragmaOk = true)
    (ho : (create_database env).connOpened = true) :
    (create_database env).connClosed = true := by
  obtain ⟨pre, co, pr, ro, sc, di, dx, cm⟩ := env
  simp only at hp
  subst hp
  have key : (create_database (DbEnv.mk pre co true ro sc di dx cm)
        : DbRunResult σ).connOpened = false ∨
      (create_database (DbEnv.mk pre co true ro sc di dx cm)).connClosed = true := by
    cases pre
    · exact Or.inl rfl
    · cases co
      · exact Or.inl rfl
      · refine Or.inr ?_
        cases ro
        · rfl
        · show (if pyStrip sc = [] then (⟨true, true, true, none, none⟩ : DbRunResult σ)
            else
              let cmds := split_sql_commands (applyConversions sc)
              if cmds = [] then ⟨true, true, true, none, none⟩
              else
                let r := runCommands dx di cmds
                if cm = false then ⟨true, true, true, none, none⟩
                else ⟨false, true, true, some (cmds.length, r.succeeded),
                  some r.finalState⟩).connClosed = true
          by_cases h1 : pyStrip sc = []
          · simp [h1]
          · by_cases h2 : split_sql_commands (applyConversions sc) = []
            · simp [h1, h2]
            · cases cm <;> simp [h1, h2]
  rcases key with hk | hk
  · rw [ho] at hk
    exact absurd hk (by decide)
  · exact hk

/-- C9 witness: a fully successful environment closes the connection. -/
theorem claim9_witness :
    (create_database (DbEnv.mk true true true true (("x;").data) ()
        (fun s _ => Except.ok s) true) : DbRunResult Unit).connClosed = true :=
  claim9_amended_release (DbEnv.mk true true true true (("x;").data) ()
    (fun s _ => Except.ok s) true) rfl rfl

/-- C3 amended: the CREATE DATABASE and USE removal rules are applied
without a dot-matches-newline mode, so their matches never cross a line
boundary: for every match, the removed span runs from the case-insensitive
keyword to the first semicolon after it, with no newline and no earlier
semicolon in between; at a keyword occurrence with no semicolon later on
the same line the pattern does not match; a script in which the pattern
matches at no position is left unchanged by the rule — in particular the
multi-line `CREATE DATABASE\nhospital;` and `USE\nhospital;` convert
unchanged, while their single-line forms are removed. -/
theorem claim3_amended_single_line_removal :
    (∀ l r, mCreateDb l = some r →
      ∃ kw pre, l = kw ++ pre ++ ';' :: r ∧
        kw.map asciiLower = ("create database").data ∧
        '\n' ∉ pre ∧ ';' ∉ pre) ∧
    (∀ l r, mUse l = some r →
      ∃ kw pre, l = kw ++ pre ++ ';' :: r ∧
        kw.map asciiLower = ("use").data ∧
        '\n' ∉ pre ∧ ';' ∉ pre) ∧
    (∀ l m, dropPrefixCI (("create database").data) l = some m →
      ';' ∉ m.takeWhile (fun c => c ≠ '\n') → mCreateDb l = none) ∧
    (∀ l m, dropPrefixCI (("use").data) l = some m →
      ';' ∉ m.takeWhile (fun c => c ≠ '\n') → mUse l = none) ∧
    (∀ s, (∀ i, i < s.length → mCreateDb (s.drop i) = none) →
      reSub mCreateDb [] s = s) ∧
    (∀ s, (∀ i, i < s.length → mUse (s.drop i) = none) →
      reSub mUse [] s = s) ∧
    applyConversions (("CREATE DATABASE\nhospital;").data)
      = ("CREATE DATABASE\nhospital;").data ∧
    applyConversions (("USE\nhospital;").data) = ("USE\nhospital;").data ∧
    applyConversions (("CREATE DATABASE hospital;").data) = [] ∧
    applyConversions (("USE hospital;").data) = [] := by
  refine ⟨?_, ?_, ?_, ?_, ?_, ?_, rfl, rfl, rfl, rfl⟩
  · intro l r h
    rw [mCreateDb] at h
    obtain ⟨m, hd, hg⟩ := Option.bind_eq_some.mp h
    obtain ⟨kw, hkw1, hkw2⟩ := dropPrefixCI_spec _ _ _ hd
    obtain ⟨pre, hp1, hp2, hp3⟩ := lazySemi_spec m r hg
    refine ⟨kw, pre, by rw [hkw1, hp1, List.append_assoc], ?_, hp2, hp3⟩
    rw [hkw2]
    decide
  · intro l r h
    rw [mUse] at h
    obtain ⟨m, hd, hg⟩ := Option.bind_eq_some.mp h
    obtain ⟨kw, hkw1, hkw2⟩ := dropPrefixCI_spec _ _ _ hd
    obtain ⟨pre, hp1, hp2, hp3⟩ := lazySemi_spec m r hg
    refine ⟨kw, pre, by rw [hkw1, hp1, List.append_assoc], ?_, hp2, hp3⟩
    rw [hkw2]
    decide
  · intro l m hd hsemi
    rw [mCreateDb, hd, Option.some_bind]
    exact lazySemi_none m hsemi
  · intro l m hd hsemi
    rw [mUse, hd, Option.some_bind]
    exact lazySemi_none m hsemi
  · intro s h
    exact reSub_id_of_no_match mCreateDb [] s rfl h
  · intro s h
    exact reSub_id_of_no_match mUse [] s rfl h

/-- C3 witness: the no-match identity laws applied to the two multi-line
statements, whose semicolons sit on a later line. -/
theorem claim3_witness :
    reSub mCreateDb [] (("CREATE DATABASE\nhospital;").data)
      = ("CREATE DATABASE\nhospital;").data ∧
    reSub mUse [] (("USE\nhospital;").data) = ("USE\nhospital;").data :=
  ⟨claim3_amended_single_line_removal.2.2.2.2.1
      (("CREATE DATABASE\nhospital;").data) (by decide),
    claim3_amended_single_line_removal.2.2.2.2.2.1
      (("USE\nhospital;").data) (by decide)⟩

end HospitalQuery
